import Mathlib

/-!
# Verification of the xsshh DOM-XSS taint analyzer

A shallow embedding of the taint-analysis core of the `xsshh` repository
(`src/scopes.ts` and `src/engine.ts`) together with proofs of the behavioural
properties stated in its specification.

Modelling conventions:
* The mutable TS `Scope` objects with parent pointers are encoded as a list
  `List Scope` whose head is the current (innermost) scope and whose tail is
  the chain of ancestors; methods that recurse through `this.parent` become
  recursion over the list, methods that touch only `this` become functions
  `Scope → Scope` applied to the head.
* The analyzer's side effects (scope mutation, `console.log` reports) are
  explicit state passing of an `AnalyzerState` carrying the scope chain and
  the ordered list of emitted findings.
* `Variable.node` / the `node` parameter of `markSource` (a syntax-node
  reference stored for display only and never read back by the analysis)
  is not modelled.
* The `children` back-pointer list of a TS `Scope` is kept only "for
  structural completeness" (spec §3) and never read; it is not modelled.
* JavaScript regular-expression tests are modelled by their exact meaning
  on strings: `SINK_VARIABLE` is an end-anchored alternation (ends-with any
  of five suffixes), `SINK_FUNCTION` is unanchored (contains
  `document.write`; the optional `(In)?` group never changes `test`).
-/

namespace Xsshh

/-- One entry of a string-keyed JS `Map`: lookup by key (`Map.get`). -/
def lookupA {α : Type} (k : String) : List (String × α) → Option α
  | [] => none
  | (k', v) :: rest => if k' = k then some v else lookupA k rest

/-- JS `Map.set`: replace the value at an existing key (keeping its
position), or append a fresh binding at the end. -/
def setA {α : Type} (k : String) (v : α) : List (String × α) → List (String × α)
  | [] => [(k, v)]
  | (k', v') :: rest => if k' = k then (k, v) :: rest else (k', v') :: setA k v rest

/-- engine.ts `SINK_VARIABLE`: the regex
`(?:document\.domain|innerHTML|outerHTML|insertAdjacentHTML|onevent)$`
is an end-anchored alternation, i.e. an ends-with test against these five
suffixes. -/
def SINK_VARIABLE : List String :=
  ["document.domain", "innerHTML", "outerHTML", "insertAdjacentHTML", "onevent"]

/-- engine.ts `isSinkVariable`. -/
def isSinkVariable (input : String) : Bool :=
  SINK_VARIABLE.any (fun suf => List.isSuffixOf suf.data input.data)

/-- `pat` occurs as a contiguous sublist of `s`. -/
def subListC (pat : List Char) : List Char → Bool
  | [] => pat.isEmpty
  | c :: rest => List.isPrefixOf pat (c :: rest) || subListC pat rest

/-- engine.ts `SINK_FUNCTION`: the regex `document\.write(In)?` is
unanchored and its group is optional, so `test` succeeds exactly when the
input contains the substring `document.write`. -/
def SINK_FUNCTION : String := "document.write"

/-- engine.ts `isSinkFunction`. -/
def isSinkFunction (input : String) : Bool :=
  subListC SINK_FUNCTION.data input.data

/-- scopes.ts `BASE_SOURCES`: variables attacker controlled by nature. -/
def BASE_SOURCES : List String :=
  ["document.URL", "document.documentURI", "document.URLUnencoded",
   "document.baseURI", "location.search", "document.cookie", "document.referrer"]

/-- scopes.ts `isBaseSource` (`BASE_SOURCES.includes(id)`). -/
def isBaseSource (id : String) : Bool :=
  BASE_SOURCES.contains id

/-- scopes.ts `Variable` (the display-only `node` field is not modelled). -/
structure Variable where
  identifier : String
  isSource : Bool
  controllers : List String
  isFunctionArg : Bool
deriving DecidableEq, Repr

/-- scopes.ts `Scope` (one record of the chain; `parent`/`children` are
encoded by the position in a `List Scope`). The TS field `variables` is a
reserved word in Lean and is named `vars` here. -/
structure Scope where
  vars : List (String × Variable) := []
  sinks : List (String × List Bool) := []
  sinked : List String := []
deriving DecidableEq, Repr

/-- scopes.ts `Scope.isSource`, on the chain `this :: ancestors`:
base-source check first, then the local variable's flag, else delegate to
the parent; `false` past the root. -/
def Scope.isSource : List Scope → String → Bool
  | [], _ => false
  | s :: rest, id =>
    if isBaseSource id then true
    else
      match lookupA id s.vars with
      | some v => v.isSource
      | none => Scope.isSource rest id

/-- scopes.ts `Scope.markSource` on the chain: update the nearest scope
owning `id` in place (spreading the old variable, setting `isSource`,
`controllers` and `isFunctionArg`); a no-op past the root. -/
def Scope.markSource : List Scope → String → List String → Bool → List Scope
  | [], _, _, _ => []
  | s :: rest, id, sources, isArg =>
    match lookupA id s.vars with
    | some v =>
      { s with vars := setA id { v with isSource := true, controllers := sources,
                                        isFunctionArg := isArg } s.vars } :: rest
    | none => s :: Scope.markSource rest id sources isArg

/-- scopes.ts `Scope.markSinked` on the chain: if the local variable exists
and is a source, append `id` to the local `sinked` list; otherwise (even
when a non-source local variable exists) delegate to the parent. -/
def Scope.markSinked : List Scope → String → List Scope
  | [], _ => []
  | s :: rest, id =>
    match lookupA id s.vars with
    | some v =>
      if v.isSource then { s with sinked := s.sinked ++ [id] } :: rest
      else s :: Scope.markSinked rest id
    | none => s :: Scope.markSinked rest id

/-- scopes.ts `Scope.markSink` (current scope only). -/
def Scope.markSink (s : Scope) (id : String) (argList : List Bool) : Scope :=
  { s with sinks := setA id argList s.sinks }

/-- scopes.ts `Scope.findSink` on the chain: local lookup, else parent,
else the empty profile. -/
def Scope.findSink : List Scope → String → List Bool
  | [], _ => []
  | s :: rest, id =>
    match lookupA id s.sinks with
    | some profile => profile
    | none => Scope.findSink rest id

/-- scopes.ts `Scope.createVariable` (current scope only): a fresh
non-source variable with empty controllers, overwriting any prior local
binding of the same name. -/
def Scope.createVariable (s : Scope) (identifier : String) (isFunctionArg : Bool) : Scope :=
  { s with vars := setA identifier ⟨identifier, false, [], isFunctionArg⟩ s.vars }

/-- Apply a current-scope-only method to the head of the chain. -/
def onCurrent (f : Scope → Scope) : List Scope → List Scope
  | [] => []
  | s :: rest => f s :: rest

/-- One reported source-to-sink flow, as handed to the reporting
collaborator (engine.ts `Analyzer.report`; the highlighted node is
presentation only and not modelled). -/
structure Finding where
  sources : List String
  sink : String
deriving DecidableEq, Repr

/-- The walker's state: the current scope chain (engine.ts field
`Analyzer.scope`) and the ordered findings emitted so far. -/
structure AnalyzerState where
  scope : List Scope
  findings : List Finding
deriving DecidableEq, Repr

/-- engine.ts `Analyzer.report`: mark every contributing source as sinked,
then emit exactly one finding to the reporting collaborator. -/
def report (sources : List String) (sink : String) (st : AnalyzerState) : AnalyzerState :=
  { scope := sources.foldl (fun chain src => Scope.markSinked chain src) st.scope,
    findings := st.findings ++ [{ sources := sources, sink := sink }] }

mutual

/-- The estree expression shapes the analyzer distinguishes
(engine.ts `Analyzer.expression`); `unrecognized` is the explicit
fallback arm for every other expression kind (spec §9). `lit` carries the
rendered text of a Literal, which like `superExpr`/`privateIdent` falls to
the default arm of `expression`. -/
inductive Expr where
  | ident (name : String)
  | lit (raw : String)
  | superExpr
  | privateIdent (name : String)
  | member (obj : Expr) (prop : Expr) (computed : Bool)
  | assign (left : Expr) (right : Expr)
  | call (callee : Expr) (args : List Arg)
  | newExpr (args : List Arg)
  | template (exprs : List Expr)
  | update (arg : Expr)
  | awaitExpr (arg : Expr)
  | unary (arg : Expr)
  | binary (left : Expr) (right : Expr)
  | logical (left : Expr) (right : Expr)
  | conditional (test : Expr) (consequent : Expr) (alternate : Expr)
  | sequence (exprs : List Expr)
  | unrecognized

/-- A call/new argument: a plain expression or a `SpreadElement`. -/
inductive Arg where
  | expr (e : Expr)
  | spread (e : Expr)

end

/-- The variable declarators of a `VariableDeclaration`: the identifier
(`none` models a non-Identifier binding pattern, which the analyzer skips
entirely) and the optional initializer. -/
def Declarator : Type := Option String × Option Expr

/-- The `init` slot of a `ForStatement`. -/
inductive ForInit where
  | decl (decls : List Declarator)
  | expr (e : Expr)

/-- The estree statement shapes the analyzer distinguishes
(engine.ts `Analyzer.statement`); `unrecognized` is the explicit fallback
arm for every other statement kind (spec §9). Only the child fields the
walker reads are carried (e.g. a `ForOfStatement` is walked through its
body alone). -/
inductive Stmt where
  | exprStmt (e : Expr)
  | block (body : List Stmt)
  | funcDecl (id : Option String) (params : List Expr) (body : List Stmt)
  | doWhile (test : Expr) (body : Stmt)
  | forStmt (init : Option ForInit) (test : Option Expr) (update : Option Expr) (body : Stmt)
  | forOf (body : Stmt)
  | forIn (body : Stmt)
  | ifStmt (consequent : Stmt) (alternate : Option Stmt)
  | labeled (body : Stmt)
  | switchStmt (cases : List (List Stmt))
  | tryStmt (block : List Stmt) (handler : Option Stmt) (finalizer : Option Stmt)
  | varDecl (decls : List Declarator)
  | unrecognized

/-- Modelled from the spec: the external rendering collaborator
(escodegen's `generate`, spec §6), which must be "syntactically faithful"
on dotted chains and is otherwise only used for display. Identifiers,
literals and member chains are rendered exactly; other shapes (never
compared against source or sink patterns by the claims) get an opaque
placeholder. -/
def render : Expr → String
  | .ident name => name
  | .lit raw => raw
  | .superExpr => "super"
  | .privateIdent name => "#" ++ name
  | .member obj prop computed =>
    if computed then render obj ++ "[" ++ render prop ++ "]"
    else render obj ++ "." ++ render prop
  | _ => "<expr>"

mutual

/-- engine.ts `Analyzer.expression` and the per-shape methods it
dispatches to; returns the controlled sources in the expression together
with the updated state. -/
def expression : Expr → AnalyzerState → List String × AnalyzerState
  -- Analyzer.identifier
  | .ident name, st =>
    if Scope.isSource st.scope name then ([name], st) else ([], st)
  -- Analyzer.assignment
  | .assign left right, st =>
    let leftStr := render left
    let (sources, st1) := expression right st
    if sources.isEmpty then ([], st1)
    else if isSinkVariable leftStr then ([], report sources leftStr st1)
    else ([leftStr],
          { st1 with scope := Scope.markSource st1.scope leftStr sources false })
  -- Analyzer.callExpression
  | .call callee args, st =>
    let (argSources, st1) := argumentsTaint args st
    let (sources, st2) :=
      match callee with
      | .ident _ => (argSources, st1)
      | .superExpr => (argSources, st1)
      | c =>
        let (calleeSources, st') := expression c st1
        (argSources ++ calleeSources, st')
    let calleeStr := render callee
    if isSinkFunction calleeStr then
      (sources, report sources calleeStr st2)
    else
      -- findSink always returns an array (truthy in JS), so the derived
      -- profile pass over the arguments runs unconditionally.
      let markedArgs := Scope.findSink st2.scope calleeStr
      (sources, derivedSinkCheck args 0 markedArgs calleeStr st2)
  -- Analyzer.newExpression
  | .newExpr args, st => argumentsTaint args st
  -- Analyzer.templateLiteral
  | .template exprs, st => expressionsTaint exprs st
  -- Analyzer.memberExpression
  | .member obj prop computed, st =>
    let (objSources, st1) :=
      match obj with
      | .superExpr => ([], st)
      | o => expression o st
    let (propSources, st2) :=
      match prop with
      | .privateIdent _ => ([], st1)
      | p => expression p st1
    let str := render (Expr.member obj prop computed)
    let sources := objSources ++ propSources
    if Scope.isSource st2.scope str then (sources ++ [str], st2) else (sources, st2)
  | .update arg, st => expression arg st
  | .awaitExpr arg, st => expression arg st
  | .unary arg, st => expression arg st
  -- Analyzer.binaryExpression
  | .binary left right, st =>
    let (l, st1) := expression left st
    let (r, st2) := expression right st1
    (l ++ r, st2)
  | .logical left right, st =>
    let (l, st1) := expression left st
    let (r, st2) := expression right st1
    (l ++ r, st2)
  -- Analyzer.conditionalExpression (the test is not evaluated)
  | .conditional _ consequent alternate, st =>
    let (c, st1) := expression consequent st
    let (a, st2) := expression alternate st1
    (c ++ a, st2)
  -- Analyzer.sequenceExpression
  | .sequence exprs, st => expressionsTaint exprs st
  -- default arm: every unrecognized shape is taint-opaque
  | .lit _, st => ([], st)
  | .superExpr, st => ([], st)
  | .privateIdent _, st => ([], st)
  | .unrecognized, st => ([], st)

/-- Flat-mapped taint of an expression list (sequence/template bodies). -/
def expressionsTaint : List Expr → AnalyzerState → List String × AnalyzerState
  | [], st => ([], st)
  | e :: rest, st =>
    let (s1, st1) := expression e st
    let (s2, st2) := expressionsTaint rest st1
    (s1 ++ s2, st2)

/-- First pass over call/new arguments: flattened taint of every
non-spread argument (spread elements contribute nothing). -/
def argumentsTaint : List Arg → AnalyzerState → List String × AnalyzerState
  | [], st => ([], st)
  | .spread _ :: rest, st => argumentsTaint rest st
  | .expr e :: rest, st =>
    let (s1, st1) := expression e st
    let (s2, st2) := argumentsTaint rest st1
    (s1 ++ s2, st2)

/-- Second pass over call arguments (the `markedArgs` forEach of
`Analyzer.callExpression`): every non-spread argument is evaluated again,
and a finding is reported for a position flagged `true` in the derived
profile whose argument taint is non-empty. -/
def derivedSinkCheck : List Arg → Nat → List Bool → String → AnalyzerState → AnalyzerState
  | [], _, _, _, st => st
  | .spread _ :: rest, i, marked, callee, st =>
    derivedSinkCheck rest (i + 1) marked callee st
  | .expr e :: rest, i, marked, callee, st =>
    let (sourcesInArg, st1) := expression e st
    let st2 :=
      if marked.getD i false && !sourcesInArg.isEmpty then report sourcesInArg callee st1
      else st1
    derivedSinkCheck rest (i + 1) marked callee st2

end

/-- Entering a block: `new Scope(this.scope)` becomes the current scope. -/
def pushScope (st : AnalyzerState) : AnalyzerState :=
  { st with scope := ({} : Scope) :: st.scope }

/-- Leaving a block: read the child scope's `sinked` list and restore the
saved outer scope (engine.ts `Analyzer.blockStatement` epilogue). -/
def popScope (st : AnalyzerState) : List String × AnalyzerState :=
  match st.scope with
  | [] => ([], st)
  | s :: rest => (s.sinked, { st with scope := rest })

/-- Parameter binding on function-body entry: each parameter is created in
the child scope and conservatively marked as a source with empty
controllers (engine.ts `Analyzer.blockStatement`, `args` branch). -/
def bindArgs : List String → AnalyzerState → AnalyzerState
  | [], st => st
  | arg :: rest, st =>
    let st1 := { st with scope := onCurrent (fun s => s.createVariable arg true) st.scope }
    let st2 := { st1 with scope := Scope.markSource st1.scope arg [] true }
    bindArgs rest st2

mutual

/-- engine.ts `Analyzer.statement` and the per-shape statement methods it
dispatches to. `Analyzer.blockStatement`'s push/walk/pop is written out at
each of its three call sites (block, function declaration, try block). -/
def statement : Stmt → AnalyzerState → AnalyzerState
  | .exprStmt e, st => (expression e st).2
  -- Analyzer.blockStatement
  | .block body, st => (popScope (statementList body (pushScope st))).2
  -- Analyzer.functionDeclaration
  | .funcDecl id params body, st =>
    let args := params.map render
    let (sinked, st1) := popScope (statementList body (bindArgs args (pushScope st)))
    match id with
    | some name =>
      let argList := args.map (fun arg => sinked.contains arg)
      { st1 with scope := onCurrent (fun s => s.markSink name argList) st1.scope }
    | none => st1
  -- Analyzer.doWhileStatement
  | .doWhile test body, st => statement body (expression test st).2
  -- Analyzer.forStatement
  | .forStmt init test update body, st =>
    let st1 :=
      match init with
      | some (.decl decls) => variableDeclaration decls st
      | some (.expr e) => (expression e st).2
      | none => st
    let st2 := match test with | some t => (expression t st1).2 | none => st1
    let st3 := match update with | some u => (expression u st2).2 | none => st2
    statement body st3
  | .forOf body, st => statement body st
  | .forIn body, st => statement body st
  -- Analyzer.ifStatement
  | .ifStmt consequent alternate, st =>
    let st1 := statement consequent st
    match alternate with
    | some a => statement a st1
    | none => st1
  | .labeled body, st => statement body st
  -- Analyzer.switchStatement
  | .switchStmt cases, st => switchCases cases st
  -- Analyzer.tryStatement
  | .tryStmt blk handler finalizer, st =>
    let st1 := (popScope (statementList blk (pushScope st))).2
    let st2 := match handler with | some h => statement h st1 | none => st1
    match finalizer with
    | some f => statement f st2
    | none => st2
  | .varDecl decls, st => variableDeclaration decls st
  -- default arm: every unrecognized statement shape is skipped
  | .unrecognized, st => st

/-- engine.ts `Analyzer.variableDeclaration`: per declarator with an
Identifier binding, evaluate the initializer, create the variable, and
mark it as a source when the initializer's taint is non-empty; declarators
with other binding patterns are skipped entirely. -/
def variableDeclaration : List Declarator → AnalyzerState → AnalyzerState
  | [], st => st
  | (none, _) :: rest, st => variableDeclaration rest st
  | (some id, init) :: rest, st =>
    let (sources, st1) :=
      match init with
      | some e => expression e st
      | none => ([], st)
    let st2 := { st1 with scope := onCurrent (fun s => s.createVariable id false) st1.scope }
    let st3 :=
      if sources.isEmpty then st2
      else { st2 with scope := Scope.markSource st2.scope id sources false }
    variableDeclaration rest st3

/-- The case bodies of a switch statement, visited in order. -/
def switchCases : List (List Stmt) → AnalyzerState → AnalyzerState
  | [], st => st
  | c :: rest, st => switchCases rest (statementList c st)

/-- A statement sequence, visited in order (`forEach` over a body). -/
def statementList : List Stmt → AnalyzerState → AnalyzerState
  | [], st => st
  | s :: rest, st => statementList rest (statement s st)

end

/-- engine.ts `Analyzer`: the parsed program (parsing is the external
parser collaborator) and the scope field initialised by the constructor. -/
structure Analyzer where
  program : List Stmt
  scope : List Scope

/-- The `Analyzer` constructor: a fresh root scope for the parsed
program. -/
def Analyzer.new (program : List Stmt) : Analyzer :=
  { program := program, scope := [({} : Scope)] }

/-- engine.ts `Analyzer.run`: walk every top-level statement in order. -/
def Analyzer.run (a : Analyzer) : AnalyzerState :=
  statementList a.program { scope := a.scope, findings := [] }

/-- Analyze a parsed program from a fresh analyzer and collect the ordered
findings handed to the reporting collaborator. -/
def analyze (program : List Stmt) : List Finding :=
  (Analyzer.run (Analyzer.new program)).findings


/-! ## Helper lemmas -/

/-- `Map.get` after `Map.set` at the same key returns the new value. -/
theorem lookupA_setA_self {α : Type} (k : String) (v : α) (l : List (String × α)) :
    lookupA k (setA k v l) = some v := by
  induction l with
  | nil => simp [setA, lookupA]
  | cons p rest ih =>
    obtain ⟨k', v'⟩ := p
    by_cases hk : k' = k
    · simp [setA, lookupA, hk]
    · simp [setA, lookupA, hk, ih]

/-- A membership in the base-source list makes `isBaseSource` true. -/
theorem isBaseSource_of_mem (p : String) (hp : p ∈ BASE_SOURCES) :
    isBaseSource p = true :=
  List.elem_eq_true_of_mem hp

theorem isPrefixOf_self_append (l post : List Char) :
    List.isPrefixOf l (l ++ post) = true := by
  induction l with
  | nil => simp [List.isPrefixOf]
  | cons c cs ih => simp [List.isPrefixOf, ih]

theorem subListC_self_append (pat post : List Char) :
    subListC pat (pat ++ post) = true := by
  cases pat with
  | nil => cases post <;> simp [subListC, List.isPrefixOf]
  | cons c cs =>
    simp only [List.cons_append, subListC, Bool.or_eq_true]
    exact Or.inl (by simp [List.isPrefixOf, isPrefixOf_self_append cs post])

theorem subListC_append_right (pat rest pre : List Char)
    (h : subListC pat rest = true) : subListC pat (pre ++ rest) = true := by
  induction pre with
  | nil => simpa using h
  | cons c cs ih =>
    simp only [List.cons_append, subListC, Bool.or_eq_true]
    exact Or.inr ih

set_option maxHeartbeats 1600000

/-! ## The claims -/

/-- C2. Direct sink: analyzing the single statement
`document.write(location.search)` produces exactly one finding, whose
sources sequence is `["location.search"]` and whose sink string matches
the dangerous write-function pattern. -/
theorem direct_sink_document_write :
    analyze [Stmt.exprStmt (Expr.call
        (Expr.member (Expr.ident "document") (Expr.ident "write") false)
        [Arg.expr (Expr.member (Expr.ident "location") (Expr.ident "search") false)])] =
      [{ sources := ["location.search"], sink := "document.write" }] ∧
    isSinkFunction "document.write" = true := by
  constructor <;> decide

/-- C1. Inter-procedural derived sink profile: analyzing
`function f(x){ e.innerHTML = x; } f(location.search);` registers the
profile `[true]` for `f` in the restored outer scope and emits a finding
at the call site with the tainted argument as its sources (after the
finding produced inside the body, where the parameter is conservatively
tainted); calling `f('literal')` instead emits no finding at the call. -/
theorem interprocedural_derived_sink :
    analyze [Stmt.funcDecl (some "f") [Expr.ident "x"]
        [Stmt.exprStmt (Expr.assign
          (Expr.member (Expr.ident "e") (Expr.ident "innerHTML") false)
          (Expr.ident "x"))],
      Stmt.exprStmt (Expr.call (Expr.ident "f")
        [Arg.expr (Expr.member (Expr.ident "location") (Expr.ident "search") false)])] =
      [{ sources := ["x"], sink := "e.innerHTML" },
       { sources := ["location.search"], sink := "f" }] ∧
    Scope.findSink ((Analyzer.new [Stmt.funcDecl (some "f") [Expr.ident "x"]
        [Stmt.exprStmt (Expr.assign
          (Expr.member (Expr.ident "e") (Expr.ident "innerHTML") false)
          (Expr.ident "x"))]]).run.scope) "f" = [true] ∧
    analyze [Stmt.funcDecl (some "f") [Expr.ident "x"]
        [Stmt.exprStmt (Expr.assign
          (Expr.member (Expr.ident "e") (Expr.ident "innerHTML") false)
          (Expr.ident "x"))],
      Stmt.exprStmt (Expr.call (Expr.ident "f") [Arg.expr (Expr.lit "'literal'")])] =
      [{ sources := ["x"], sink := "e.innerHTML" }] := by
  refine ⟨by decide, by decide, by decide⟩

/-- C3. Assignment-expression evaluation: relative to the state reached by
evaluating the right-hand side, the assignment handler returns the empty
sequence and changes nothing further when the right-hand taint is empty;
emits exactly one finding (sources = right-hand taint, sink = left path)
and returns the empty sequence when the rendered left path matches the
dangerous-assignment-target pattern; and otherwise calls `Scope.markSource`
on the left path with the right-hand taint as controllers and returns the
single-element sequence containing the left path. -/
theorem assignment_characterization (left right : Expr) (st st1 : AnalyzerState)
    (sources : List String) (h : expression right st = (sources, st1)) :
    expression (Expr.assign left right) st =
      (if sources.isEmpty then (([] : List String), st1)
       else if isSinkVariable (render left) then
         (([] : List String), report sources (render left) st1)
       else ([render left],
             { st1 with scope := Scope.markSource st1.scope (render left) sources false })) ∧
    (report sources (render left) st1).findings =
      st1.findings ++ [{ sources := sources, sink := render left }] := by
  have step : expression (Expr.assign left right) st =
      (match expression right st with
       | (sources, st1) =>
         if sources.isEmpty then (([] : List String), st1)
         else if isSinkVariable (render left) then
           (([] : List String), report sources (render left) st1)
         else ([render left],
               { st1 with scope := Scope.markSource st1.scope (render left) sources false })) := rfl
  constructor
  · rw [step, h]
  · simp [report]

/-- Witness for C3: `y = '0'` has an untainted right-hand side, so the
assignment is untracked. -/
theorem assignment_characterization_witness :
    expression (Expr.assign (Expr.ident "y") (Expr.lit "0"))
        { scope := [{}], findings := [] } =
      (([] : List String), ({ scope := [{}], findings := [] } : AnalyzerState)) := by
  have h := assignment_characterization (Expr.ident "y") (Expr.lit "0")
    { scope := [{}], findings := [] } { scope := [{}], findings := [] } [] rfl
  simpa using h.1

/-- C4. Base source invariant: for every scope chain and every path in the
fixed base-source list, `Scope.isSource` returns true regardless of the
variables declared in the scope or its ancestors. -/
theorem base_source_invariant (s : Scope) (chain : List Scope) (p : String)
    (hp : p ∈ BASE_SOURCES) :
    Scope.isSource (s :: chain) p = true := by
  simp [Scope.isSource, isBaseSource_of_mem p hp]

/-- Witness for C4: `location.search` is a source even in a two-deep empty
chain. -/
theorem base_source_invariant_witness :
    "location.search" ∈ BASE_SOURCES ∧
    Scope.isSource [({} : Scope), ({} : Scope)] "location.search" = true :=
  ⟨by decide, base_source_invariant {} [{}] "location.search" (by decide)⟩

/-- C5. Shadowing: `createVariable` always installs a fresh non-tainted
variable with empty controllers (overwriting any prior local binding), so
for any ancestor chain -- in particular one holding a tainted variable of
the same name -- `isSource` on the declaring scope returns false, provided
the name is not a base-source path. -/
theorem shadowing_resets_taint (s : Scope) (chain : List Scope) (n : String)
    (isArg : Bool) (hbase : isBaseSource n = false) :
    lookupA n (Scope.createVariable s n isArg).vars =
      some { identifier := n, isSource := false, controllers := [], isFunctionArg := isArg } ∧
    Scope.isSource (Scope.createVariable s n isArg :: chain) n = false := by
  constructor
  · simp [Scope.createVariable, lookupA_setA_self]
  · simp [Scope.isSource, hbase, Scope.createVariable, lookupA_setA_self]

/-- Witness for C5: a local `q` shadows a tainted outer `q`. -/
theorem shadowing_resets_taint_witness :
    isBaseSource "q" = false ∧
    Scope.isSource
      (Scope.createVariable {} "q" false ::
        [(⟨[("q", ⟨"q", true, ["location.search"], false⟩)], [], []⟩ : Scope)]) "q" = false := by
  have h := shadowing_resets_taint {}
    [(⟨[("q", ⟨"q", true, ["location.search"], false⟩)], [], []⟩ : Scope)] "q" false (by decide)
  exact ⟨by decide, h.2⟩

/-- C6. `markSource` on an identifier owned by no scope in the chain is a
no-op: every scope (variables, sinks and sinked lists alike) is returned
unchanged. -/
theorem markSource_unowned_noop (chain : List Scope) (id : String)
    (controllers : List String) (isArg : Bool)
    (h : forall s, s ∈ chain → lookupA id s.vars = none) :
    Scope.markSource chain id controllers isArg = chain := by
  induction chain with
  | nil => rfl
  | cons s rest ih =>
    have hs := h s (List.mem_cons_self s rest)
    have hrest := ih (fun t ht => h t (List.mem_cons_of_mem s ht))
    simp only [Scope.markSource, hs, hrest]

/-- Witness for C6: marking an undeclared `w` in a fresh chain changes
nothing. -/
theorem markSource_unowned_noop_witness :
    (forall s, s ∈ [({} : Scope)] → lookupA "w" s.vars = none) ∧
    Scope.markSource [({} : Scope)] "w" ["location.search"] false = [({} : Scope)] :=
  ⟨by decide, markSource_unowned_noop [{}] "w" ["location.search"] false (by decide)⟩

/-- C7. Unrecognized syntax is taint-opaque: the fallback statement arm
makes no state change and visits no children, and every expression shape
outside the recognized set (the explicit fallback, literals, `super`, and
private identifiers, i.e. the shapes handled by the default arm of
`Analyzer.expression`) evaluates to the empty taint sequence with no side
effects. -/
theorem unrecognized_taint_opaque (st : AnalyzerState) :
    statement Stmt.unrecognized st = st ∧
    expression Expr.unrecognized st = ([], st) ∧
    (forall raw, expression (Expr.lit raw) st = ([], st)) ∧
    expression Expr.superExpr st = ([], st) ∧
    (forall n, expression (Expr.privateIdent n) st = ([], st)) :=
  ⟨rfl, rfl, fun _ => rfl, rfl, fun _ => rfl⟩

/-- C8. Determinism across runs: any two analyzer instances built by the
constructor from the same parsed program (each with its own fresh root
scope) produce identical ordered findings; the output is a function of the
program alone, with no state surviving between runs. -/
theorem analyzer_run_deterministic (p : List Stmt) (a b : Analyzer)
    (ha : a = Analyzer.new p) (hb : b = Analyzer.new p) :
    a.run.findings = b.run.findings := by
  subst ha
  subst hb
  rfl

/-- Witness for C8: two fresh runs of a one-statement program agree. -/
theorem analyzer_run_deterministic_witness :
    (Analyzer.new [Stmt.exprStmt (Expr.ident "x")]).run.findings =
      (Analyzer.new [Stmt.exprStmt (Expr.ident "x")]).run.findings :=
  analyzer_run_deterministic [Stmt.exprStmt (Expr.ident "x")] _ _ rfl rfl

/-- C9. Double evaluation of call arguments: when the rendered callee does
not match the sink-function pattern, the call handler first folds the
taint of every non-spread argument (`argumentsTaint`) and then runs the
derived-profile pass (`derivedSinkCheck`), which evaluates every
non-spread argument a second time and runs even when no profile is
registered, because `findSink` returns the empty array on a chain with no
binding for the callee; consequently `g(el.innerHTML = location.search)`
emits two findings for one syntactic flow. -/
theorem call_arguments_double_evaluation (f : String) (args : List Arg)
    (st st1 : AnalyzerState) (argSources : List String)
    (hf : isSinkFunction f = false)
    (h1 : argumentsTaint args st = (argSources, st1)) :
    expression (Expr.call (Expr.ident f) args) st =
      (argSources, derivedSinkCheck args 0 (Scope.findSink st1.scope f) f st1) ∧
    (forall chain : List Scope,
      (forall s, s ∈ chain → lookupA f s.sinks = none) → Scope.findSink chain f = []) ∧
    analyze [Stmt.exprStmt (Expr.call (Expr.ident "g")
        [Arg.expr (Expr.assign
          (Expr.member (Expr.ident "el") (Expr.ident "innerHTML") false)
          (Expr.member (Expr.ident "location") (Expr.ident "search") false))])] =
      [{ sources := ["location.search"], sink := "el.innerHTML" },
       { sources := ["location.search"], sink := "el.innerHTML" }] := by
  have step : expression (Expr.call (Expr.ident f) args) st =
      (match argumentsTaint args st with
       | (argSources, st1) =>
         if isSinkFunction f then (argSources, report argSources f st1)
         else (argSources, derivedSinkCheck args 0 (Scope.findSink st1.scope f) f st1)) := rfl
  refine ⟨?_, ?_, by decide⟩
  · rw [step, h1]
    simp [hf]
  · intro chain hchain
    induction chain with
    | nil => rfl
    | cons s rest ih =>
      have hs := hchain s (List.mem_cons_self s rest)
      have hrest := ih (fun t ht => hchain t (List.mem_cons_of_mem s ht))
      simp only [Scope.findSink, hs, hrest]

/-- Witness for C9: the sink-consuming assignment argument of a call to an
unprofiled `g` is evaluated on both passes. -/
theorem call_arguments_double_evaluation_witness :
    expression (Expr.call (Expr.ident "g")
        [Arg.expr (Expr.assign
          (Expr.member (Expr.ident "el") (Expr.ident "innerHTML") false)
          (Expr.member (Expr.ident "location") (Expr.ident "search") false))])
      { scope := [{}], findings := [] } =
      (([] : List String), derivedSinkCheck
        [Arg.expr (Expr.assign
          (Expr.member (Expr.ident "el") (Expr.ident "innerHTML") false)
          (Expr.member (Expr.ident "location") (Expr.ident "search") false))]
        0
        (Scope.findSink [({} : Scope)] "g") "g"
        { scope := [{}],
          findings := [{ sources := ["location.search"], sink := "el.innerHTML" }] }) := by
  have h := call_arguments_double_evaluation "g"
    [Arg.expr (Expr.assign
      (Expr.member (Expr.ident "el") (Expr.ident "innerHTML") false)
      (Expr.member (Expr.ident "location") (Expr.ident "search") false))]
    { scope := [{}], findings := [] }
    { scope := [{}],
      findings := [{ sources := ["location.search"], sink := "el.innerHTML" }] }
    [] (by decide) (by decide)
  exact h.1

/-- C10. Unanchored sink-function match: `isSinkFunction` is true on every
string containing the substring `document.write` anywhere (the regex is
unanchored and its `(In)?` group optional), so a call whose rendered
callee merely contains that substring, such as
`mydocument.writeLog(location.search)`, emits a finding when its argument
is tainted. -/
theorem sink_function_unanchored_match :
    (forall pre post : String, isSinkFunction (pre ++ "document.write" ++ post) = true) ∧
    analyze [Stmt.exprStmt (Expr.call
        (Expr.member (Expr.ident "mydocument") (Expr.ident "writeLog") false)
        [Arg.expr (Expr.member (Expr.ident "location") (Expr.ident "search") false)])] =
      [{ sources := ["location.search"], sink := "mydocument.writeLog" }] := by
  constructor
  · intro pre post
    unfold isSinkFunction SINK_FUNCTION
    rw [String.data_append, String.data_append, List.append_assoc]
    exact subListC_append_right _ _ _ (subListC_self_append _ _)
  · decide

end Xsshh
